import Mathlib

/-!
Verification of the sent-packet ledger (`QuicUnackedPacketMap`) of the quiche
repository.  The repository provides the class declaration in
`src/quic/core/quic_unacked_packet_map.h`; the method bodies live outside the
repository snapshot, so each operation below is modelled from the
specification's description of that method (doc comments say which method and
which part of the spec).  Packet numbers, byte counts and times are modelled
as `Nat`; fatal precondition violations are modelled by `Option` results.
-/

/-- Encryption levels of sent packets (the header's `EncryptionLevel`). -/
inductive EncryptionLevel where
  | initial
  | handshake
  | zeroRtt
  | oneRtt
deriving DecidableEq, Repr

/-- Packet number spaces (the header's `PacketNumberSpace`):
Initial, Handshake and Application data. -/
inductive PacketNumberSpace where
  | initialData
  | handshakeData
  | applicationData
deriving DecidableEq, Repr, Fintype

/-- Modelled from the spec: maps each encryption level to its packet number
space (`GetPacketNumberSpace(EncryptionLevel)`, §4.4: Initial and Handshake
levels map to their own spaces, both application-data levels to the
application space). -/
def GetPacketNumberSpaceOfLevel : EncryptionLevel → PacketNumberSpace
  | EncryptionLevel.initial => PacketNumberSpace.initialData
  | EncryptionLevel.handshake => PacketNumberSpace.handshakeData
  | EncryptionLevel.zeroRtt => PacketNumberSpace.applicationData
  | EncryptionLevel.oneRtt => PacketNumberSpace.applicationData

/-- Retransmittable frames carried by a packet: stream frames with a stream
identifier, an offset and a data length, and other (control) frames. -/
inductive QuicFrame where
  | stream (stream_id offset data_length : Nat)
  | control (tag : Nat)
deriving DecidableEq, Repr

/-- Transmission type tag distinguishing the original send from the several
retransmission causes (§3). -/
inductive TransmissionType where
  | notRetransmission
  | lossRetransmission
  | ptoRetransmission
deriving DecidableEq, Repr

/-- One Transmission Record of the ledger (the header's
`QuicTransmissionInfo`), as described in §3 of the spec.
`retransmission_link` is the packet number of the most recent retransmission
of the same logical data, if any. -/
structure QuicTransmissionInfo where
  encryption_level : EncryptionLevel
  bytes_sent : Nat
  sent_time : Nat
  transmission_type : TransmissionType
  in_flight : Bool
  needs_rtt_measurement : Bool
  retransmittable_frames : List QuicFrame
  retransmission_link : Option Nat
deriving DecidableEq, Repr

/-- The value handed to the send path by the packetizer (§6 upstream
producer contract): packet number, byte length, encryption level and owned
retransmittable frames. -/
structure SerializedPacket where
  packet_number : Nat
  encryption_level : EncryptionLevel
  bytes_sent : Nat
  retransmittable_frames : List QuicFrame
deriving DecidableEq, Repr

/-- The aggregated acked stream data buffered by the Stream-Ack Aggregator
(§4.5); `none` plays the role of the invalid-stream-id sentinel. -/
structure AggregatedStreamFrame where
  stream_id : Nat
  offset : Nat
  data_length : Nat
deriving DecidableEq, Repr

/-- Calls observed by the External Notifier (§6): a contiguous block of
acked stream data, or an acked control frame. -/
inductive Notification where
  | ackedStream (stream_id offset data_length : Nat)
  | ackedControl (tag : Nat)
deriving DecidableEq, Repr

/-- State of the sent-packet ledger (the header's `QuicUnackedPacketMap`
fields, lines 399-455).  `unacked_packets` holds the record of packet number
`least_unacked + i` at index `i`; packet number 0 stands for the
uninitialized `QuicPacketNumber`. -/
structure QuicUnackedPacketMap where
  largest_sent_packet : Nat
  largest_sent_retransmittable_packets : PacketNumberSpace → Nat
  largest_acked : Nat
  largest_acked_packets : PacketNumberSpace → Nat
  unacked_packets : List QuicTransmissionInfo
  least_unacked : Nat
  bytes_in_flight : Nat
  bytes_in_flight_per_packet_number_space : PacketNumberSpace → Nat
  packets_in_flight : Nat
  last_inflight_packet_sent_time : Nat
  last_inflight_packets_sent_time : PacketNumberSpace → Nat
  last_crypto_packet_sent_time : Nat
  aggregated_stream_frame : Option AggregatedStreamFrame
  supports_multiple_packet_number_spaces : Bool

/-- The freshly constructed ledger: nothing sent, nothing acked, packet
numbers will start at 1 (§8 monotonic send). -/
def initialState : QuicUnackedPacketMap where
  largest_sent_packet := 0
  largest_sent_retransmittable_packets := fun _ => 0
  largest_acked := 0
  largest_acked_packets := fun _ => 0
  unacked_packets := []
  least_unacked := 1
  bytes_in_flight := 0
  bytes_in_flight_per_packet_number_space := fun _ => 0
  packets_in_flight := 0
  last_inflight_packet_sent_time := 0
  last_inflight_packets_sent_time := fun _ => 0
  last_crypto_packet_sent_time := 0
  aggregated_stream_frame := none
  supports_multiple_packet_number_spaces := false

/-- Positional lookup in the record list. -/
def nthInfo : List QuicTransmissionInfo → Nat → Option QuicTransmissionInfo
  | [], _ => none
  | a :: _, 0 => some a
  | _ :: rest, i + 1 => nthInfo rest i

/-- Positional update in the record list. -/
def setInfo : List QuicTransmissionInfo → Nat → QuicTransmissionInfo →
    List QuicTransmissionInfo
  | [], _, _ => []
  | _ :: rest, 0, v => v :: rest
  | a :: rest, i + 1, v => a :: setInfo rest i v

/-- Modelled from the spec: `GetTransmissionInfo` (header lines 201-202,
§4.1) addressed by offset from `least_unacked`; `none` when the number is
not tracked (a fatal precondition violation in the source). -/
def getTransmissionInfo (s : QuicUnackedPacketMap) (n : Nat) :
    Option QuicTransmissionInfo :=
  if s.least_unacked ≤ n then nthInfo s.unacked_packets (n - s.least_unacked)
  else none

/-- Modelled from the spec: body of `QuicUnackedPacketMap::AddSentPacket`
(header lines 42-46) following §4.2: requires the packet number be
`largest_sent_packet + 1`, appends a new record at the tail, updates
`largest_sent_packet`, and when `set_in_flight` holds adds the bytes to the
global and per-space in-flight counters and refreshes the last in-flight
sent times; retransmittable data updates the per-space largest sent
retransmittable number, and retransmittable data on the handshake space
refreshes the last crypto packet sent time.  A wrong packet number is a
fatal contract violation (§7), modelled as `none`. -/
def AddSentPacket (s : QuicUnackedPacketMap) (pkt : SerializedPacket)
    (tt : TransmissionType) (sent_time : Nat)
    (set_in_flight measure_rtt : Bool) : Option QuicUnackedPacketMap :=
  if pkt.packet_number = s.largest_sent_packet + 1 then
    let sp := GetPacketNumberSpaceOfLevel pkt.encryption_level
    let info : QuicTransmissionInfo :=
      { encryption_level := pkt.encryption_level
        bytes_sent := pkt.bytes_sent
        sent_time := sent_time
        transmission_type := tt
        in_flight := set_in_flight
        needs_rtt_measurement := measure_rtt
        retransmittable_frames := pkt.retransmittable_frames
        retransmission_link := none }
    some { s with
      largest_sent_packet := pkt.packet_number
      largest_sent_retransmittable_packets := fun q =>
        if pkt.retransmittable_frames ≠ [] ∧ q = sp then pkt.packet_number
        else s.largest_sent_retransmittable_packets q
      unacked_packets := s.unacked_packets ++ [info]
      bytes_in_flight :=
        s.bytes_in_flight + (if set_in_flight then pkt.bytes_sent else 0)
      bytes_in_flight_per_packet_number_space := fun q =>
        s.bytes_in_flight_per_packet_number_space q +
          (if set_in_flight ∧ q = sp then pkt.bytes_sent else 0)
      packets_in_flight :=
        s.packets_in_flight + (if set_in_flight then 1 else 0)
      last_inflight_packet_sent_time :=
        if set_in_flight then sent_time else s.last_inflight_packet_sent_time
      last_inflight_packets_sent_time := fun q =>
        if set_in_flight ∧ q = sp then sent_time
        else s.last_inflight_packets_sent_time q
      last_crypto_packet_sent_time :=
        if pkt.retransmittable_frames ≠ [] ∧
            sp = PacketNumberSpace.handshakeData then sent_time
        else s.last_crypto_packet_sent_time }
  else none

/-- The largest-acked value relevant to a record: per-space once multiple
packet number spaces are enabled, the global value otherwise (§4.1 "its
number is ≤ largest_acked for its space", §4.4). -/
def relevantLargestAcked (s : QuicUnackedPacketMap)
    (info : QuicTransmissionInfo) : Nat :=
  if s.supports_multiple_packet_number_spaces then
    s.largest_acked_packets (GetPacketNumberSpaceOfLevel info.encryption_level)
  else s.largest_acked

/-- Modelled from the spec: body of
`QuicUnackedPacketMap::IsPacketUsefulForMeasuringRtt` (header lines 383-384):
a packet is still useful for RTT purposes while it needs an RTT measurement
or may still be acked, i.e. its number exceeds the relevant largest acked. -/
def IsPacketUsefulForMeasuringRtt (s : QuicUnackedPacketMap) (n : Nat)
    (info : QuicTransmissionInfo) : Bool :=
  info.needs_rtt_measurement || decide (relevantLargestAcked s info < n)

/-- Modelled from the spec: body of
`QuicUnackedPacketMap::IsPacketUsefulForCongestionControl` (header lines
387-388): in-flight packets are useful for congestion control. -/
def IsPacketUsefulForCongestionControl (info : QuicTransmissionInfo) : Bool :=
  info.in_flight

/-- Modelled from the spec: body of
`QuicUnackedPacketMap::IsPacketUsefulForRetransmittableData` (header lines
392-393): a packet is associated with retransmittable data directly (it
still owns frames) or through an active retransmission chain (its
`retransmission_link` is set). -/
def IsPacketUsefulForRetransmittableData (info : QuicTransmissionInfo) :
    Bool :=
  !info.retransmittable_frames.isEmpty || info.retransmission_link.isSome

/-- Modelled from the spec: body of `QuicUnackedPacketMap::IsPacketUseless`
(header lines 396-397, §4.1): a record may be reclaimed exactly when it is
useful for none of RTT measurement, congestion control and retransmittable
data. -/
def IsPacketUseless (s : QuicUnackedPacketMap) (n : Nat)
    (info : QuicTransmissionInfo) : Bool :=
  !IsPacketUsefulForMeasuringRtt s n info &&
    !IsPacketUsefulForCongestionControl info &&
    !IsPacketUsefulForRetransmittableData info

/-- Modelled from the spec: the trimming loop of
`QuicUnackedPacketMap::RemoveObsoletePackets` (§4.1): starting at
`least_unacked`, while the front record is useless drop it and advance the
number; returns the final `least_unacked` and the remaining records. -/
def removeObsoleteFrom (s : QuicUnackedPacketMap) :
    Nat → List QuicTransmissionInfo → Nat × List QuicTransmissionInfo
  | least, [] => (least, [])
  | least, info :: rest =>
    if IsPacketUseless s least info then removeObsoleteFrom s (least + 1) rest
    else (least, info :: rest)

/-- Modelled from the spec: body of
`QuicUnackedPacketMap::RemoveObsoletePackets` (header lines 249-251, §4.1). -/
def RemoveObsoletePackets (s : QuicUnackedPacketMap) : QuicUnackedPacketMap :=
  let r := removeObsoleteFrom s s.least_unacked s.unacked_packets
  { s with least_unacked := r.1, unacked_packets := r.2 }

/-- Modelled from the spec: body of
`QuicUnackedPacketMap::IncreaseLargestAcked` (header lines 239-241, §4.3):
`largest_acked` becomes the max of its previous value and the argument. -/
def IncreaseLargestAcked (s : QuicUnackedPacketMap) (n : Nat) :
    QuicUnackedPacketMap :=
  { s with largest_acked := max s.largest_acked n }

/-- Modelled from the spec: body of
`QuicUnackedPacketMap::MaybeUpdateLargestAckedOfPacketNumberSpace` (header
lines 245-247, §4.3): the per-space analogue, only advances, never
regresses. -/
def MaybeUpdateLargestAckedOfPacketNumberSpace (s : QuicUnackedPacketMap)
    (sp : PacketNumberSpace) (n : Nat) : QuicUnackedPacketMap :=
  { s with largest_acked_packets := fun q =>
      if q = sp then max (s.largest_acked_packets q) n
      else s.largest_acked_packets q }

/-- Modelled from the spec: body of
`QuicUnackedPacketMap::RemoveFromInFlight` (header lines 66-70, §4.3):
requires the target record exists and is currently in flight (violation is
a fatal contract violation per §7, modelled as `none`); clears the flag and
decrements the global and per-space byte and packet counters by the
record's `bytes_sent`. -/
def RemoveFromInFlight (s : QuicUnackedPacketMap) (n : Nat) :
    Option QuicUnackedPacketMap :=
  match getTransmissionInfo s n with
  | none => none
  | some info =>
    if info.in_flight then
      let sp := GetPacketNumberSpaceOfLevel info.encryption_level
      some { s with
        unacked_packets := setInfo s.unacked_packets (n - s.least_unacked)
          { info with in_flight := false }
        bytes_in_flight := s.bytes_in_flight - info.bytes_sent
        bytes_in_flight_per_packet_number_space := fun q =>
          if q = sp then
            s.bytes_in_flight_per_packet_number_space q - info.bytes_sent
          else s.bytes_in_flight_per_packet_number_space q
        packets_in_flight := s.packets_in_flight - 1 }
    else none

/-- Modelled from the spec: body of
`QuicUnackedPacketMap::RemoveRetransmittability` (header lines 233-237,
§4.2): clears the record's frame ownership and severs its retransmission
link; a missing record leaves the ledger unchanged. -/
def RemoveRetransmittability (s : QuicUnackedPacketMap) (n : Nat) :
    QuicUnackedPacketMap :=
  match getTransmissionInfo s n with
  | none => s
  | some info =>
    let cleared := { info with retransmittable_frames := ([] : List QuicFrame),
                               retransmission_link := (none : Option Nat) }
    { s with unacked_packets :=
        setInfo s.unacked_packets (n - s.least_unacked) cleared }

/-- Result of one neutering scan: the rewritten records, the packet numbers
whose `in_flight` transitioned to false, and the bytes and packet count
removed from the in-flight totals. -/
structure NeuterResult where
  records : List QuicTransmissionInfo
  neutered : List Nat
  bytesRemoved : Nat
  packetsRemoved : Nat

/-- Modelled from the spec: the scan shared by the neutering operations
(§4.6): every record whose encryption level matches the threshold predicate
gets its retransmittable-frame ownership cleared, its retransmission link
severed and its in-flight status cleared; the packet numbers whose
`in_flight` transitioned to false are collected for the caller, together
with the bytes and packets to remove from the in-flight totals. -/
def neuterMatchedPackets (p : EncryptionLevel → Bool) :
    Nat → List QuicTransmissionInfo → NeuterResult
  | _, [] => ⟨[], [], 0, 0⟩
  | n, info :: rest =>
    let r := neuterMatchedPackets p (n + 1) rest
    if p info.encryption_level then
      let cleared := { info with retransmittable_frames := [],
                                 retransmission_link := none,
                                 in_flight := false }
      if info.in_flight then
        ⟨cleared :: r.records, n :: r.neutered,
          info.bytes_sent + r.bytesRemoved, 1 + r.packetsRemoved⟩
      else ⟨cleared :: r.records, r.neutered, r.bytesRemoved,
        r.packetsRemoved⟩
    else ⟨info :: r.records, r.neutered, r.bytesRemoved, r.packetsRemoved⟩

/-- Applies a neuter scan result to the ledger state, removing the freed
bytes and packets from the global counters and from the per-space counter
of the space the threshold predicate selects. -/
def applyNeuter (s : QuicUnackedPacketMap) (sp : PacketNumberSpace)
    (r : NeuterResult) : QuicUnackedPacketMap :=
  { s with
    unacked_packets := r.records
    bytes_in_flight := s.bytes_in_flight - r.bytesRemoved
    bytes_in_flight_per_packet_number_space := fun q =>
      if q = sp then
        s.bytes_in_flight_per_packet_number_space q - r.bytesRemoved
      else s.bytes_in_flight_per_packet_number_space q
    packets_in_flight := s.packets_in_flight - r.packetsRemoved }

/-- Modelled from the spec: body of
`QuicUnackedPacketMap::NeuterHandshakePackets` (header lines 76-79, §4.6):
neuters every record of the handshake packet number space and returns the
affected packet numbers. -/
def NeuterHandshakePackets (s : QuicUnackedPacketMap) :
    QuicUnackedPacketMap × List Nat :=
  let r := neuterMatchedPackets
    (fun lv => GetPacketNumberSpaceOfLevel lv ==
      PacketNumberSpace.handshakeData)
    s.least_unacked s.unacked_packets
  (applyNeuter s PacketNumberSpace.handshakeData r, r.neutered)

/-- Modelled from the spec: body of
`QuicUnackedPacketMap::NeuterUnencryptedPackets` (header lines 72-74, §4.6):
neuters every record below the encryption threshold (Initial level) and
returns the affected packet numbers. -/
def NeuterUnencryptedPackets (s : QuicUnackedPacketMap) :
    QuicUnackedPacketMap × List Nat :=
  let r := neuterMatchedPackets
    (fun lv => lv == EncryptionLevel.initial)
    s.least_unacked s.unacked_packets
  (applyNeuter s PacketNumberSpace.initialData r, r.neutered)

/-- The single flush of the aggregate buffer: one notifier call when the
aggregate is non-empty, none otherwise (§4.5). -/
def flushAggregate (agg : Option AggregatedStreamFrame) : List Notification :=
  match agg with
  | none => []
  | some a => [Notification.ackedStream a.stream_id a.offset a.data_length]

/-- Modelled from the spec: one frame of the aggregation loop of
`QuicUnackedPacketMap::MaybeAggregateAckedStreamFrame` (§4.5): a stream
frame contiguous with the buffered aggregate (same stream, offset equal to
the running end offset) extends it; any other stream frame flushes the
existing aggregate with a single notifier call and starts a new aggregate;
a control frame bypasses aggregation and is reported immediately. -/
def aggregateFrameStep (agg : Option AggregatedStreamFrame) (f : QuicFrame) :
    Option AggregatedStreamFrame × List Notification :=
  match f with
  | QuicFrame.control tag => (agg, [Notification.ackedControl tag])
  | QuicFrame.stream id off len =>
    match agg with
    | none => (some ⟨id, off, len⟩, [])
    | some a =>
      if id = a.stream_id ∧ off = a.offset + a.data_length then
        (some ⟨a.stream_id, a.offset, a.data_length + len⟩, [])
      else (some ⟨id, off, len⟩, flushAggregate (some a))

/-- The aggregation loop over a record's frames, threading the aggregate
and collecting the notifier calls in order. -/
def aggregateFrames (agg : Option AggregatedStreamFrame) :
    List QuicFrame → Option AggregatedStreamFrame × List Notification
  | [] => (agg, [])
  | f :: fs =>
    let r := aggregateFrameStep agg f
    let r2 := aggregateFrames r.1 fs
    (r2.1, r.2 ++ r2.2)

/-- Modelled from the spec: body of
`QuicUnackedPacketMap::MaybeAggregateAckedStreamFrame` (header lines
256-258, §4.5), applied to one acked record's frames. -/
def MaybeAggregateAckedStreamFrame (s : QuicUnackedPacketMap)
    (info : QuicTransmissionInfo) (ack_delay receive_timestamp : Nat) :
    QuicUnackedPacketMap × List Notification :=
  let r := aggregateFrames s.aggregated_stream_frame
    info.retransmittable_frames
  ({ s with aggregated_stream_frame := r.1 }, r.2)

/-- Modelled from the spec: body of
`QuicUnackedPacketMap::NotifyAggregatedStreamFrameAcked` (header line 263,
§4.5): the explicit flush at the end of an ack-processing pass; a no-op
when the aggregate is empty. -/
def NotifyAggregatedStreamFrameAcked (s : QuicUnackedPacketMap)
    (ack_delay : Nat) : QuicUnackedPacketMap × List Notification :=
  ({ s with aggregated_stream_frame := none },
    flushAggregate s.aggregated_stream_frame)

/-- Modelled from the spec: body of
`QuicUnackedPacketMap::EnableMultiplePacketNumberSpacesSupport` (header
line 301, §4.4). -/
def EnableMultiplePacketNumberSpacesSupport (s : QuicUnackedPacketMap) :
    QuicUnackedPacketMap :=
  { s with supports_multiple_packet_number_spaces := true }

/-- Modelled from the spec: body of `QuicUnackedPacketMap::GetLeastUnacked`
(header lines 114-116): the smallest packet number still tracked, or 0 when
there are no unacked packets. -/
def GetLeastUnacked (s : QuicUnackedPacketMap) : Nat :=
  if s.unacked_packets.isEmpty then 0 else s.least_unacked

/-- An ack-processing pass over a list of acked records, ending with the
explicit flush of the aggregate (§2, §4.5). -/
def processAckedRecords (s : QuicUnackedPacketMap) (d t : Nat) :
    List QuicTransmissionInfo → QuicUnackedPacketMap × List Notification
  | [] => NotifyAggregatedStreamFrameAcked s d
  | info :: rest =>
    let r := MaybeAggregateAckedStreamFrame s info d t
    let r2 := processAckedRecords r.1 d t rest
    (r2.1, r.2 ++ r2.2)

/-- Sum of `bytes_sent` over the records with `in_flight = true` (§8
in-flight accounting). -/
def inFlightBytes : List QuicTransmissionInfo → Nat
  | [] => 0
  | info :: rest =>
    (if info.in_flight then info.bytes_sent else 0) + inFlightBytes rest

/-- Count of the records with `in_flight = true`. -/
def inFlightPackets : List QuicTransmissionInfo → Nat
  | [] => 0
  | info :: rest => (if info.in_flight then 1 else 0) + inFlightPackets rest

/-- Sum of `bytes_sent` over the in-flight records of one packet number
space. -/
def inFlightBytesOfSpace (sp : PacketNumberSpace) :
    List QuicTransmissionInfo → Nat
  | [] => 0
  | info :: rest =>
    (if info.in_flight ∧
        GetPacketNumberSpaceOfLevel info.encryption_level = sp
      then info.bytes_sent else 0) + inFlightBytesOfSpace sp rest

/-- The in-flight accounting invariant (§8): the cached global and
per-space counters agree with the live sums over the tracked records. -/
def CountersOk (s : QuicUnackedPacketMap) : Prop :=
  s.bytes_in_flight = inFlightBytes s.unacked_packets ∧
  s.packets_in_flight = inFlightPackets s.unacked_packets ∧
  ∀ sp, s.bytes_in_flight_per_packet_number_space sp =
    inFlightBytesOfSpace sp s.unacked_packets

instance (s : QuicUnackedPacketMap) : Decidable (CountersOk s) := by
  unfold CountersOk; infer_instance

/-- One mutation of the ledger through its public interface. -/
inductive Step : QuicUnackedPacketMap → QuicUnackedPacketMap → Prop where
  | addSentPacket (s : QuicUnackedPacketMap) (pkt : SerializedPacket)
      (tt : TransmissionType) (sent_time : Nat) (fl rtt : Bool)
      (s' : QuicUnackedPacketMap) :
      AddSentPacket s pkt tt sent_time fl rtt = some s' → Step s s'
  | removeFromInFlight (s : QuicUnackedPacketMap) (n : Nat)
      (s' : QuicUnackedPacketMap) :
      RemoveFromInFlight s n = some s' → Step s s'
  | increaseLargestAcked (s : QuicUnackedPacketMap) (n : Nat) :
      Step s (IncreaseLargestAcked s n)
  | maybeUpdateLargestAcked (s : QuicUnackedPacketMap)
      (sp : PacketNumberSpace) (n : Nat) :
      Step s (MaybeUpdateLargestAckedOfPacketNumberSpace s sp n)
  | removeObsoletePackets (s : QuicUnackedPacketMap) :
      Step s (RemoveObsoletePackets s)
  | removeRetransmittability (s : QuicUnackedPacketMap) (n : Nat) :
      Step s (RemoveRetransmittability s n)
  | neuterUnencryptedPackets (s : QuicUnackedPacketMap) :
      Step s (NeuterUnencryptedPackets s).1
  | neuterHandshakePackets (s : QuicUnackedPacketMap) :
      Step s (NeuterHandshakePackets s).1
  | maybeAggregateAckedStreamFrame (s : QuicUnackedPacketMap)
      (info : QuicTransmissionInfo) (d t : Nat) :
      Step s (MaybeAggregateAckedStreamFrame s info d t).1
  | notifyAggregatedStreamFrameAcked (s : QuicUnackedPacketMap) (d : Nat) :
      Step s (NotifyAggregatedStreamFrameAcked s d).1
  | enableMultiplePacketNumberSpacesSupport (s : QuicUnackedPacketMap) :
      Step s (EnableMultiplePacketNumberSpacesSupport s)

/-- States reachable from the fresh ledger through the public interface. -/
inductive Reachable : QuicUnackedPacketMap → Prop where
  | init : Reachable initialState
  | step {s s' : QuicUnackedPacketMap} :
      Reachable s → Step s s' → Reachable s'

/-- States reachable when callers follow the documented ack discipline
(§5): a per-space largest-acked update is only issued for a packet number
the global `largest_acked` has already reached (the ack-processing routine
advances the global value first). -/
inductive CoupledReachable : QuicUnackedPacketMap → Prop where
  | init : CoupledReachable initialState
  | maybeUpdateLargestAcked {s : QuicUnackedPacketMap}
      (sp : PacketNumberSpace) (n : Nat) :
      CoupledReachable s → n ≤ s.largest_acked →
      CoupledReachable (MaybeUpdateLargestAckedOfPacketNumberSpace s sp n)
  | otherStep {s s' : QuicUnackedPacketMap} :
      CoupledReachable s → Step s s' →
      (∀ sp n, s' ≠ MaybeUpdateLargestAckedOfPacketNumberSpace s sp n) →
      CoupledReachable s'

/-- The packet numbers currently tracked by the ledger: the record at index
`i` has number `least_unacked + i` (§3 contiguous addressing). -/
def packetNumbers (s : QuicUnackedPacketMap) : List Nat :=
  (List.range s.unacked_packets.length).map (fun i => s.least_unacked + i)

/-- One call of the send path: the packet together with the remaining
`AddSentPacket` arguments. -/
structure SendCall where
  packet : SerializedPacket
  tt : TransmissionType
  sent_time : Nat
  set_in_flight : Bool
  measure_rtt : Bool

/-- Runs a sequence of `AddSentPacket` calls, failing as soon as one call
violates its precondition. -/
def runAdds : QuicUnackedPacketMap → List SendCall → Option QuicUnackedPacketMap
  | s, [] => some s
  | s, c :: cs =>
    match AddSentPacket s c.packet c.tt c.sent_time c.set_in_flight
        c.measure_rtt with
    | none => none
    | some s' => runAdds s' cs

/-- Observer following the spec's words (§8 neutering completeness): the
packet numbers at which the `in_flight` flag transitioned from true to
false between an old and a new record list, the first list entry carrying
packet number `n`. -/
def inFlightTransitions : Nat → List QuicTransmissionInfo →
    List QuicTransmissionInfo → List Nat
  | n, a :: as, b :: bs =>
    (if a.in_flight && !b.in_flight then [n] else []) ++
      inFlightTransitions (n + 1) as bs
  | _, _, _ => []

/-- A record whose single stream frame covers `[0,100)` of stream 1. -/
def exAckedR1 : QuicTransmissionInfo where
  encryption_level := EncryptionLevel.oneRtt
  bytes_sent := 100
  sent_time := 0
  transmission_type := TransmissionType.notRetransmission
  in_flight := false
  needs_rtt_measurement := false
  retransmittable_frames := [QuicFrame.stream 1 0 100]
  retransmission_link := none

/-- A record whose single stream frame covers `[100,250)` of stream 1. -/
def exAckedR2 : QuicTransmissionInfo :=
  { exAckedR1 with retransmittable_frames := [QuicFrame.stream 1 100 150] }

/-- A record whose single stream frame covers `[250,300)` of stream 1. -/
def exAckedR3 : QuicTransmissionInfo :=
  { exAckedR1 with retransmittable_frames := [QuicFrame.stream 1 250 50] }

/-- A record carrying a stream frame of a different stream (stream 2). -/
def exAckedOther : QuicTransmissionInfo :=
  { exAckedR1 with retransmittable_frames := [QuicFrame.stream 2 700 50] }

/-- The ledger state after aggregating the three contiguous stream-1
frames, before any flush. -/
def exStateAfterThree : QuicUnackedPacketMap :=
  (MaybeAggregateAckedStreamFrame
    (MaybeAggregateAckedStreamFrame
      (MaybeAggregateAckedStreamFrame initialState exAckedR1 0 0).1
      exAckedR2 0 0).1
    exAckedR3 0 0).1

/-- First example sent packet: number 1, Initial level, 150 bytes. -/
def exPkt1 : SerializedPacket where
  packet_number := 1
  encryption_level := EncryptionLevel.initial
  bytes_sent := 150
  retransmittable_frames := [QuicFrame.stream 1 0 120]

/-- Second example sent packet: number 2, Handshake level, 200 bytes. -/
def exPkt2 : SerializedPacket where
  packet_number := 2
  encryption_level := EncryptionLevel.handshake
  bytes_sent := 200
  retransmittable_frames := [QuicFrame.stream 3 0 180]

/-- The two example send calls, both in flight and measuring RTT. -/
def exCalls : List SendCall :=
  [⟨exPkt1, TransmissionType.notRetransmission, 5, true, true⟩,
   ⟨exPkt2, TransmissionType.notRetransmission, 7, true, true⟩]

/-- The ledger after the first example send. -/
def exAfterOneSend : QuicUnackedPacketMap :=
  (AddSentPacket initialState exPkt1 TransmissionType.notRetransmission 5
    true true).getD initialState

/-- The ledger after both example sends. -/
def exAfterTwoSends : QuicUnackedPacketMap :=
  (AddSentPacket exAfterOneSend exPkt2 TransmissionType.notRetransmission 7
    true true).getD initialState

/-- The record the first example send creates (packet number 1). -/
def exRec1 : QuicTransmissionInfo where
  encryption_level := EncryptionLevel.initial
  bytes_sent := 150
  sent_time := 5
  transmission_type := TransmissionType.notRetransmission
  in_flight := true
  needs_rtt_measurement := true
  retransmittable_frames := [QuicFrame.stream 1 0 120]
  retransmission_link := none

/-- A ledger where a per-space largest-acked update ran without the global
value having been advanced first. -/
def exUncoupled : QuicUnackedPacketMap :=
  MaybeUpdateLargestAckedOfPacketNumberSpace
    (EnableMultiplePacketNumberSpacesSupport initialState)
    PacketNumberSpace.initialData 5

/-- A ledger built under the documented ack discipline: the global
largest-acked is advanced to 5 before the Initial space records 4. -/
def exCoupled : QuicUnackedPacketMap :=
  MaybeUpdateLargestAckedOfPacketNumberSpace
    (IncreaseLargestAcked initialState 5) PacketNumberSpace.initialData 4

/-- C2: `IsPacketUseless(number, record)` returns true if and only if the
record is not in flight, carries no retransmittable frames directly or via
an active retransmission chain, is not needed for an RTT sample, and its
packet number is at most the largest acked of its packet number space. -/
theorem C2_isPacketUseless_iff (s : QuicUnackedPacketMap) (n : Nat)
    (info : QuicTransmissionInfo) :
    IsPacketUseless s n info = true ↔
      (info.in_flight = false ∧ info.retransmittable_frames = [] ∧
       info.retransmission_link = none ∧
       info.needs_rtt_measurement = false ∧
       n ≤ relevantLargestAcked s info) := by
  cases hfr : info.retransmittable_frames <;>
    cases hlink : info.retransmission_link <;>
    simp only [IsPacketUseless, IsPacketUsefulForMeasuringRtt,
      IsPacketUsefulForCongestionControl,
      IsPacketUsefulForRetransmittableData, hfr, hlink, List.isEmpty_nil,
      List.isEmpty_cons, Option.isSome_none, Option.isSome_some,
      Bool.not_true, Bool.not_false, Bool.and_eq_true, Bool.not_eq_true',
      Bool.or_eq_false_iff, Bool.or_false, Bool.or_true, Bool.and_false,
      Bool.and_true, decide_eq_false_iff_not, Nat.not_lt] <;>
    tauto

/-- C5: `IncreaseLargestAcked(n)` sets `largest_acked` to the max of its
previous value and `n`, and is a no-op when `n` does not exceed the current
value; `MaybeUpdateLargestAckedOfPacketNumberSpace` behaves the same way on
its space and leaves the other spaces untouched. -/
theorem C5_largestAcked_max (s : QuicUnackedPacketMap) (n : Nat)
    (sp : PacketNumberSpace) (m : Nat) :
    (IncreaseLargestAcked s n).largest_acked = max s.largest_acked n ∧
    (n ≤ s.largest_acked → IncreaseLargestAcked s n = s) ∧
    (MaybeUpdateLargestAckedOfPacketNumberSpace s sp m).largest_acked_packets
      sp = max (s.largest_acked_packets sp) m ∧
    (∀ q, q ≠ sp →
      (MaybeUpdateLargestAckedOfPacketNumberSpace s sp m).largest_acked_packets
        q = s.largest_acked_packets q) ∧
    (m ≤ s.largest_acked_packets sp →
      MaybeUpdateLargestAckedOfPacketNumberSpace s sp m = s) := by
  refine ⟨rfl, ?_, by simp [MaybeUpdateLargestAckedOfPacketNumberSpace], ?_, ?_⟩
  · intro h
    show { s with largest_acked := max s.largest_acked n } = s
    rw [Nat.max_eq_left h]
  · intro q hq
    simp [MaybeUpdateLargestAckedOfPacketNumberSpace, hq]
  · intro h
    show { s with largest_acked_packets := fun q =>
      if q = sp then max (s.largest_acked_packets q) m
      else s.largest_acked_packets q } = s
    have hfun : (fun q => if q = sp then max (s.largest_acked_packets q) m
        else s.largest_acked_packets q) = s.largest_acked_packets := by
      funext q
      by_cases hq : q = sp
      · subst hq; simp [Nat.max_eq_left h]
      · simp [hq]
    rw [hfun]

/-- C5 witness: at `largest_acked = 5`, acking 3 is a no-op and acking 9
advances to 9; the Initial space behaves the same way. -/
theorem C5_witness :
    (IncreaseLargestAcked (IncreaseLargestAcked initialState 5) 9).largest_acked
      = max (IncreaseLargestAcked initialState 5).largest_acked 9 ∧
    IncreaseLargestAcked (IncreaseLargestAcked initialState 5) 3 =
      IncreaseLargestAcked initialState 5 ∧
    MaybeUpdateLargestAckedOfPacketNumberSpace exCoupled
        PacketNumberSpace.initialData 2 = exCoupled := by
  refine ⟨(C5_largestAcked_max (IncreaseLargestAcked initialState 5) 9
      PacketNumberSpace.initialData 0).1,
    (C5_largestAcked_max (IncreaseLargestAcked initialState 5) 3
      PacketNumberSpace.initialData 0).2.1 (by decide),
    (C5_largestAcked_max exCoupled 0 PacketNumberSpace.initialData 2).2.2.2.2
      (by decide)⟩

/-- C7: acking the three contiguous stream-1 frames and flushing produces
exactly one notifier call covering `[0,300)`; a frame of another stream
forces the aggregate to be flushed before that frame is processed, the
whole pass then producing exactly two notifier calls; the explicit flush is
a no-op on an empty aggregate. -/
theorem C7_streamFrameAggregation :
    (processAckedRecords initialState 0 0
      [exAckedR1, exAckedR2, exAckedR3]).2 =
      [Notification.ackedStream 1 0 300] ∧
    (MaybeAggregateAckedStreamFrame exStateAfterThree exAckedOther 0 0).2 =
      [Notification.ackedStream 1 0 300] ∧
    (processAckedRecords initialState 0 0
      [exAckedR1, exAckedR2, exAckedR3, exAckedOther]).2 =
      [Notification.ackedStream 1 0 300,
       Notification.ackedStream 2 700 50] ∧
    NotifyAggregatedStreamFrameAcked initialState 0 = (initialState, []) :=
  ⟨by decide, by decide, by decide, rfl⟩

/-- C10: `GetLeastUnacked()` returns 0 when no packets are tracked; on a
non-empty ledger it returns the smallest tracked packet number. -/
theorem C10_getLeastUnacked (s : QuicUnackedPacketMap) :
    (s.unacked_packets = [] → GetLeastUnacked s = 0) ∧
    (s.unacked_packets ≠ [] →
      GetLeastUnacked s ∈ packetNumbers s ∧
      ∀ n, n ∈ packetNumbers s → GetLeastUnacked s ≤ n) := by
  constructor
  · intro h
    simp [GetLeastUnacked, h]
  · intro h
    have hne : s.unacked_packets.isEmpty = false := by
      simp [List.isEmpty_eq_false, h]
    have hlen : 0 < s.unacked_packets.length := List.length_pos.mpr h
    constructor
    · simp only [GetLeastUnacked, hne, Bool.false_eq_true, if_false,
        packetNumbers, List.mem_map, List.mem_range]
      exact ⟨0, hlen, by omega⟩
    · intro n hn
      simp only [packetNumbers, List.mem_map, List.mem_range] at hn
      obtain ⟨i, _, hi⟩ := hn
      simp only [GetLeastUnacked, hne, Bool.false_eq_true, if_false]
      omega

/-- C10 witness: after the two example sends the ledger is non-empty and
the least unacked number is 1; the fresh empty ledger reports 0. -/
theorem C10_witness :
    GetLeastUnacked initialState = 0 ∧
    GetLeastUnacked exAfterTwoSends ∈ packetNumbers exAfterTwoSends ∧
    GetLeastUnacked exAfterTwoSends ≤ 1 := by
  have h1 := (C10_getLeastUnacked initialState).1 rfl
  have h2 := (C10_getLeastUnacked exAfterTwoSends).2 (by decide)
  exact ⟨h1, h2.1, h2.2 1 (by decide)⟩

/-- Unfolding equation of the trimming loop on a non-empty ledger. -/
theorem removeObsoleteFrom_cons (s : QuicUnackedPacketMap) (least : Nat)
    (info : QuicTransmissionInfo) (rest : List QuicTransmissionInfo) :
    removeObsoleteFrom s least (info :: rest) =
      if IsPacketUseless s least info then
        removeObsoleteFrom s (least + 1) rest
      else (least, info :: rest) := rfl

/-- The trimming loop drops a prefix of `k` useless records, adds `k` to the
running number, and stops on an empty list or a non-useless front. -/
theorem removeObsoleteFrom_spec (s : QuicUnackedPacketMap) :
    ∀ (l : List QuicTransmissionInfo) (least : Nat),
      ∃ k, k ≤ l.length ∧
        (removeObsoleteFrom s least l).2 = l.drop k ∧
        (removeObsoleteFrom s least l).1 = least + k ∧
        ((removeObsoleteFrom s least l).2 = [] ∨
          ∃ info rest, (removeObsoleteFrom s least l).2 = info :: rest ∧
            IsPacketUseless s (removeObsoleteFrom s least l).1 info = false)
  | [], least => ⟨0, by simp [removeObsoleteFrom]⟩
  | info :: rest, least => by
    rw [removeObsoleteFrom_cons]
    by_cases h : IsPacketUseless s least info = true
    · obtain ⟨k, hk, hdrop, hleast, hstop⟩ :=
        removeObsoleteFrom_spec s rest (least + 1)
      refine ⟨k + 1, by simpa using hk, ?_, ?_, ?_⟩
      · simpa [h] using hdrop
      · simp only [h, if_true]
        omega
      · simpa [h] using hstop
    · have hfalse : IsPacketUseless s least info = false := by
        simpa using h
      exact ⟨0, by simp, by simp [hfalse], by simp [hfalse],
        Or.inr ⟨info, rest, by simp [hfalse], by simp [hfalse]⟩⟩

/-- C3: `RemoveObsoletePackets` removes exactly a prefix of `k` records,
advances `least_unacked` by exactly `k`, and stops with an empty ledger or
a front record that fails `IsPacketUseless`. -/
theorem C3_removeObsoletePackets (s : QuicUnackedPacketMap) :
    ∃ k, k ≤ s.unacked_packets.length ∧
      (RemoveObsoletePackets s).unacked_packets =
        s.unacked_packets.drop k ∧
      (RemoveObsoletePackets s).least_unacked = s.least_unacked + k ∧
      ((RemoveObsoletePackets s).unacked_packets = [] ∨
        ∃ info rest,
          (RemoveObsoletePackets s).unacked_packets = info :: rest ∧
          IsPacketUseless (RemoveObsoletePackets s)
            (RemoveObsoletePackets s).least_unacked info = false) := by
  obtain ⟨k, hk, hdrop, hleast, hstop⟩ :=
    removeObsoleteFrom_spec s s.unacked_packets s.least_unacked
  exact ⟨k, hk, hdrop, hleast, hstop⟩

/-- Inversion of a successful `AddSentPacket`: the accepted number is the
successor of `largest_sent_packet` and the needed result fields. -/
theorem addSentPacket_inv {s : QuicUnackedPacketMap} {pkt : SerializedPacket}
    {tt : TransmissionType} {sent_time : Nat} {fl rtt : Bool}
    {s' : QuicUnackedPacketMap}
    (h : AddSentPacket s pkt tt sent_time fl rtt = some s') :
    pkt.packet_number = s.largest_sent_packet + 1 ∧
    s'.largest_sent_packet = pkt.packet_number ∧
    s'.largest_acked = s.largest_acked ∧
    s'.largest_acked_packets = s.largest_acked_packets := by
  unfold AddSentPacket at h
  by_cases hn : pkt.packet_number = s.largest_sent_packet + 1
  · simp only [hn, if_true, Option.some_inj] at h
    subst h
    exact ⟨hn, by rw [hn], rfl, rfl⟩
  · simp [hn] at h

/-- A successful run of `AddSentPacket` calls advances `largest_sent_packet`
by the number of calls, and the `i`-th accepted number is the starting
largest sent plus `i + 1`. -/
theorem runAdds_spec :
    ∀ (calls : List SendCall) (s s' : QuicUnackedPacketMap),
      runAdds s calls = some s' →
      s'.largest_sent_packet = s.largest_sent_packet + calls.length ∧
      ∀ i (hi : i < calls.length),
        (calls.get ⟨i, hi⟩).packet.packet_number =
          s.largest_sent_packet + i + 1
  | [], s, s', h => by
    simp only [runAdds, Option.some_inj] at h
    subst h
    exact ⟨by simp, fun i hi => by simp at hi⟩
  | c :: cs, s, s', h => by
    simp only [runAdds] at h
    cases hadd : AddSentPacket s c.packet c.tt c.sent_time c.set_in_flight
        c.measure_rtt with
    | none => rw [hadd] at h; cases h
    | some s1 =>
      rw [hadd] at h
      obtain ⟨hnum, hlar, -, -⟩ := addSentPacket_inv hadd
      obtain ⟨hlen, hnums⟩ := runAdds_spec cs s1 s' h
      constructor
      · simp only [List.length_cons]
        omega
      · intro i hi
        cases i with
        | zero => simpa using hnum
        | succ j =>
          have hj : j < cs.length := by simpa using hi
          have := hnums j hj
          simp only [List.get_cons_succ]
          rw [this, hlar, hnum]
          omega

/-- Splitting a successful run at a list split point. -/
theorem runAdds_append :
    ∀ (l1 l2 : List SendCall) (s s' : QuicUnackedPacketMap),
      runAdds s (l1 ++ l2) = some s' →
      ∃ sm, runAdds s l1 = some sm ∧ runAdds sm l2 = some s'
  | [], l2, s, s', h => ⟨s, rfl, h⟩
  | c :: cs, l2, s, s', h => by
    simp only [List.cons_append, runAdds] at h ⊢
    cases hadd : AddSentPacket s c.packet c.tt c.sent_time c.set_in_flight
        c.measure_rtt with
    | none => rw [hadd] at h; cases h
    | some s1 =>
      rw [hadd] at h
      exact runAdds_append cs l2 s1 s' h

/-- C4: from a fresh ledger, a sequence of valid `AddSentPacket` calls
accepts exactly the numbers 1, 2, 3, ...; after the whole run
`largest_sent_packet` equals the number of calls, and after each prefix it
equals that call's packet number, so each send advances it by exactly 1. -/
theorem C4_monotonicSend (calls : List SendCall)
    (s' : QuicUnackedPacketMap)
    (h : runAdds initialState calls = some s') :
    s'.largest_sent_packet = calls.length ∧
    (∀ i (hi : i < calls.length),
      (calls.get ⟨i, hi⟩).packet.packet_number = i + 1) ∧
    (∀ i (hi : i < calls.length), ∃ si,
      runAdds initialState (calls.take (i + 1)) = some si ∧
      si.largest_sent_packet = (calls.get ⟨i, hi⟩).packet.packet_number) := by
  obtain ⟨hlen, hnums⟩ := runAdds_spec calls initialState s' h
  have hinit : initialState.largest_sent_packet = 0 := rfl
  refine ⟨by rw [hlen, hinit]; omega, ?_, ?_⟩
  · intro i hi
    have := hnums i hi
    rw [hinit] at this
    omega
  · intro i hi
    have hsplit : calls.take (i + 1) ++ calls.drop (i + 1) = calls :=
      List.take_append_drop (i + 1) calls
    obtain ⟨sm, h1, -⟩ := runAdds_append (calls.take (i + 1))
      (calls.drop (i + 1)) initialState s' (by rw [hsplit]; exact h)
    obtain ⟨hlen1, -⟩ := runAdds_spec (calls.take (i + 1)) initialState sm h1
    have htl : (calls.take (i + 1)).length = i + 1 := by
      simp [List.length_take]
      omega
    have hni := hnums i hi
    rw [hinit] at hni
    refine ⟨sm, h1, ?_⟩
    rw [hlen1, hinit, htl, hni]
    omega

/-- C4 witness: the two example sends are accepted with numbers 1 and 2 and
leave `largest_sent_packet` at 2. -/
theorem C4_witness :
    exAfterTwoSends.largest_sent_packet = 2 ∧
    (exCalls.get ⟨0, by decide⟩).packet.packet_number = 1 ∧
    (exCalls.get ⟨1, by decide⟩).packet.packet_number = 2 := by
  have h := C4_monotonicSend exCalls exAfterTwoSends (by rfl)
  exact ⟨h.1, h.2.1 0 (by decide), h.2.1 1 (by decide)⟩

/-- Appending one record adds its contribution to the in-flight byte sum. -/
theorem inFlightBytes_append (l : List QuicTransmissionInfo)
    (a : QuicTransmissionInfo) :
    inFlightBytes (l ++ [a]) =
      inFlightBytes l + (if a.in_flight then a.bytes_sent else 0) := by
  induction l with
  | nil => simp [inFlightBytes]
  | cons b rest ih =>
    simp only [List.cons_append, inFlightBytes, List.append_eq]
    rw [ih]
    omega

/-- Appending one record adds its contribution to the in-flight count. -/
theorem inFlightPackets_append (l : List QuicTransmissionInfo)
    (a : QuicTransmissionInfo) :
    inFlightPackets (l ++ [a]) =
      inFlightPackets l + (if a.in_flight then 1 else 0) := by
  induction l with
  | nil => simp [inFlightPackets]
  | cons b rest ih =>
    simp only [List.cons_append, inFlightPackets, List.append_eq]
    rw [ih]
    omega

/-- Appending one record adds its contribution to each per-space byte sum. -/
theorem inFlightBytesOfSpace_append (sp : PacketNumberSpace)
    (l : List QuicTransmissionInfo) (a : QuicTransmissionInfo) :
    inFlightBytesOfSpace sp (l ++ [a]) =
      inFlightBytesOfSpace sp l +
        (if a.in_flight ∧ GetPacketNumberSpaceOfLevel a.encryption_level = sp
          then a.bytes_sent else 0) := by
  induction l with
  | nil => simp [inFlightBytesOfSpace]
  | cons b rest ih =>
    simp only [List.cons_append, inFlightBytesOfSpace, List.append_eq]
    rw [ih]
    omega

/-- Clearing the in-flight flag of the record at index `i` removes exactly
its contribution from each in-flight sum. -/
theorem inFlightSums_clear :
    ∀ (l : List QuicTransmissionInfo) (i : Nat)
      (info : QuicTransmissionInfo), nthInfo l i = some info →
      info.in_flight = true →
      inFlightBytes l =
        inFlightBytes (setInfo l i { info with in_flight := false }) +
          info.bytes_sent ∧
      inFlightPackets l =
        inFlightPackets (setInfo l i { info with in_flight := false }) + 1 ∧
      ∀ sp, inFlightBytesOfSpace sp l =
        inFlightBytesOfSpace sp
            (setInfo l i { info with in_flight := false }) +
          (if GetPacketNumberSpaceOfLevel info.encryption_level = sp
            then info.bytes_sent else 0)
  | [], i, info, h, _ => by cases h
  | a :: rest, 0, info, h, hf => by
    simp only [nthInfo, Option.some_inj] at h
    subst h
    refine ⟨?_, ?_, fun sp => ?_⟩
    · simp [setInfo, inFlightBytes, hf]
      try omega
    · simp [setInfo, inFlightPackets, hf]
      try omega
    · by_cases hsp : GetPacketNumberSpaceOfLevel a.encryption_level = sp <;>
        simp [setInfo, inFlightBytesOfSpace, hf, hsp] <;>
        try omega
  | a :: rest, i + 1, info, h, hf => by
    simp only [nthInfo] at h
    obtain ⟨h1, h2, h3⟩ := inFlightSums_clear rest i info h hf
    refine ⟨?_, ?_, fun sp => ?_⟩
    · simp only [setInfo, inFlightBytes]
      rw [h1]
      omega
    · simp only [setInfo, inFlightPackets]
      rw [h2]
      omega
    · simp only [setInfo, inFlightBytesOfSpace]
      rw [h3 sp]
      omega

/-- Replacing the record at index `i` by one agreeing on `in_flight`,
`bytes_sent` and `encryption_level` leaves every in-flight sum unchanged. -/
theorem inFlightSums_same :
    ∀ (l : List QuicTransmissionInfo) (i : Nat)
      (info v : QuicTransmissionInfo), nthInfo l i = some info →
      v.in_flight = info.in_flight → v.bytes_sent = info.bytes_sent →
      v.encryption_level = info.encryption_level →
      inFlightBytes (setInfo l i v) = inFlightBytes l ∧
      inFlightPackets (setInfo l i v) = inFlightPackets l ∧
      ∀ sp, inFlightBytesOfSpace sp (setInfo l i v) =
        inFlightBytesOfSpace sp l
  | [], i, info, v, h, _, _, _ => by cases h
  | a :: rest, 0, info, v, h, h1, h2, h3 => by
    simp only [nthInfo, Option.some_inj] at h
    subst h
    exact ⟨by simp [setInfo, inFlightBytes, h1, h2],
      by simp [setInfo, inFlightPackets, h1],
      fun sp => by simp [setInfo, inFlightBytesOfSpace, h1, h2, h3]⟩
  | a :: rest, i + 1, info, v, h, h1, h2, h3 => by
    simp only [nthInfo] at h
    obtain ⟨g1, g2, g3⟩ := inFlightSums_same rest i info v h h1 h2 h3
    refine ⟨?_, ?_, fun sp => ?_⟩
    · simp only [setInfo, inFlightBytes]
      rw [g1]
    · simp only [setInfo, inFlightPackets]
      rw [g2]
    · simp only [setInfo, inFlightBytesOfSpace]
      rw [g3 sp]

/-- A useless record is not in flight. -/
theorem isPacketUseless_not_inFlight {s : QuicUnackedPacketMap} {n : Nat}
    {info : QuicTransmissionInfo} (h : IsPacketUseless s n info = true) :
    info.in_flight = false :=
  ((C2_isPacketUseless_iff s n info).mp h).1

/-- The trimming loop only drops records that are not in flight, so every
in-flight sum is unchanged. -/
theorem inFlightSums_removeObsoleteFrom (s : QuicUnackedPacketMap) :
    ∀ (l : List QuicTransmissionInfo) (least : Nat),
      inFlightBytes (removeObsoleteFrom s least l).2 = inFlightBytes l ∧
      inFlightPackets (removeObsoleteFrom s least l).2 = inFlightPackets l ∧
      ∀ sp, inFlightBytesOfSpace sp (removeObsoleteFrom s least l).2 =
        inFlightBytesOfSpace sp l
  | [], least => by simp [removeObsoleteFrom]
  | info :: rest, least => by
    rw [removeObsoleteFrom_cons]
    by_cases h : IsPacketUseless s least info = true
    · have hnf : info.in_flight = false := isPacketUseless_not_inFlight h
      obtain ⟨h1, h2, h3⟩ := inFlightSums_removeObsoleteFrom s rest (least + 1)
      refine ⟨?_, ?_, fun sp => ?_⟩
      · simp [h, inFlightBytes, hnf, h1]
      · simp [h, inFlightPackets, hnf, h2]
      · simp [h, inFlightBytesOfSpace, hnf, h3 sp]
    · simp [h]

/-- The neuter scan splits each in-flight sum into the sum over the
rewritten records plus the removed contribution; records of other spaces
are untouched when the threshold predicate only selects levels of one
space. -/
theorem inFlightSums_neuterMatched (p : EncryptionLevel → Bool)
    (sp0 : PacketNumberSpace)
    (hp : ∀ lv, p lv = true → GetPacketNumberSpaceOfLevel lv = sp0) :
    ∀ (l : List QuicTransmissionInfo) (n : Nat),
      inFlightBytes l =
        inFlightBytes (neuterMatchedPackets p n l).records +
          (neuterMatchedPackets p n l).bytesRemoved ∧
      inFlightPackets l =
        inFlightPackets (neuterMatchedPackets p n l).records +
          (neuterMatchedPackets p n l).packetsRemoved ∧
      (inFlightBytesOfSpace sp0 l =
        inFlightBytesOfSpace sp0 (neuterMatchedPackets p n l).records +
          (neuterMatchedPackets p n l).bytesRemoved) ∧
      ∀ sp, sp ≠ sp0 →
        inFlightBytesOfSpace sp (neuterMatchedPackets p n l).records =
          inFlightBytesOfSpace sp l
  | [], n => by simp [neuterMatchedPackets, inFlightBytes, inFlightPackets,
      inFlightBytesOfSpace]
  | info :: rest, n => by
    obtain ⟨h1, h2, h3, h4⟩ := inFlightSums_neuterMatched p sp0 hp rest (n + 1)
    show inFlightBytes (info :: rest) = _ ∧ _
    by_cases hm : p info.encryption_level = true
    · have hsp : GetPacketNumberSpaceOfLevel info.encryption_level = sp0 :=
        hp info.encryption_level hm
      by_cases hf : info.in_flight = true
      · simp only [neuterMatchedPackets, hm, if_true, hf]
        refine ⟨?_, ?_, ?_, fun sp hne => ?_⟩
        · simp only [inFlightBytes, hf, if_true]
          simp only [Bool.false_eq_true, if_false]
          rw [h1]
          omega
        · simp only [inFlightPackets, hf, if_true]
          simp only [Bool.false_eq_true, if_false]
          rw [h2]
          omega
        · simp only [inFlightBytesOfSpace, hf, hsp, true_and, if_true]
          simp only [Bool.false_eq_true, false_and, if_false]
          rw [h3]
          omega
        · simp only [inFlightBytesOfSpace, Bool.false_eq_true, false_and,
            if_false]
          rw [h4 sp hne]
          simp [hf, hsp, Ne.symm hne]
      · have hf' : info.in_flight = false := by
          simpa using hf
        simp only [neuterMatchedPackets, hm, if_true, hf', Bool.false_eq_true,
          if_false]
        refine ⟨?_, ?_, ?_, fun sp hne => ?_⟩
        · simp only [inFlightBytes, hf']
          simp
          omega
        · simp only [inFlightPackets, hf']
          simp
          omega
        · simp only [inFlightBytesOfSpace, hf']
          simp
          omega
        · simp only [inFlightBytesOfSpace, hf']
          simp
          rw [h4 sp hne]
    · simp only [neuterMatchedPackets, hm, Bool.false_eq_true, if_false]
      refine ⟨?_, ?_, ?_, fun sp hne => ?_⟩
      · simp only [inFlightBytes]
        rw [h1]
        omega
      · simp only [inFlightPackets]
        rw [h2]
        omega
      · simp only [inFlightBytesOfSpace]
        rw [h3]
        omega
      · simp only [inFlightBytesOfSpace]
        rw [h4 sp hne]

/-- Every public-interface mutation preserves the in-flight accounting
invariant. -/
theorem countersOk_step {s s' : QuicUnackedPacketMap} (h : Step s s')
    (hs : CountersOk s) : CountersOk s' := by
  obtain ⟨hb, hp, hsp⟩ := hs
  cases h with
  | addSentPacket pkt tt sent_time fl rtt s' hadd =>
    unfold AddSentPacket at hadd
    by_cases hn : pkt.packet_number = s.largest_sent_packet + 1
    · simp only [hn, if_true, Option.some_inj] at hadd
      subst hadd
      refine ⟨?_, ?_, fun q => ?_⟩
      · dsimp only
        rw [inFlightBytes_append, hb]
      · dsimp only
        rw [inFlightPackets_append, hp]
      · dsimp only
        rw [inFlightBytesOfSpace_append, hsp q]
        by_cases hq : q = GetPacketNumberSpaceOfLevel pkt.encryption_level
        · subst hq
          rfl
        · have hq2 : GetPacketNumberSpaceOfLevel pkt.encryption_level ≠ q :=
            fun hcontra => hq hcontra.symm
          simp [hq, hq2]
    · simp [hn] at hadd
  | removeFromInFlight n s' hrem =>
    unfold RemoveFromInFlight at hrem
    cases hg : getTransmissionInfo s n with
    | none => rw [hg] at hrem; cases hrem
    | some info =>
      rw [hg] at hrem
      by_cases hf : info.in_flight = true
      · simp only [hf, if_true, Option.some_inj] at hrem
        subst hrem
        by_cases hle : s.least_unacked ≤ n
        · simp only [getTransmissionInfo, hle, if_true] at hg
          obtain ⟨h1, h2, h3⟩ :=
            inFlightSums_clear s.unacked_packets (n - s.least_unacked) info
              hg hf
          refine ⟨?_, ?_, fun q => ?_⟩
          · dsimp only
            omega
          · dsimp only
            omega
          · dsimp only
            by_cases hq :
                q = GetPacketNumberSpaceOfLevel info.encryption_level
            · subst hq
              have h3q := h3 (GetPacketNumberSpaceOfLevel
                info.encryption_level)
              rw [if_pos rfl] at h3q ⊢
              have hq0 := hsp (GetPacketNumberSpaceOfLevel
                info.encryption_level)
              omega
            · rw [if_neg hq]
              have h3q := h3 q
              rw [if_neg (fun hcontra => hq hcontra.symm),
                Nat.add_zero] at h3q
              rw [hsp q, h3q]
        · simp [getTransmissionInfo, hle] at hg
      · simp [hf] at hrem
  | increaseLargestAcked n => exact ⟨hb, hp, hsp⟩
  | maybeUpdateLargestAcked sp n => exact ⟨hb, hp, hsp⟩
  | removeObsoletePackets =>
    obtain ⟨h1, h2, h3⟩ :=
      inFlightSums_removeObsoleteFrom s s.unacked_packets s.least_unacked
    refine ⟨?_, ?_, fun q => ?_⟩
    · show s.bytes_in_flight = _
      rw [hb, ← h1]
      rfl
    · show s.packets_in_flight = _
      rw [hp, ← h2]
      rfl
    · show s.bytes_in_flight_per_packet_number_space q = _
      rw [hsp q, ← h3 q]
      rfl
  | removeRetransmittability n =>
    unfold RemoveRetransmittability
    cases hg : getTransmissionInfo s n with
    | none => exact ⟨hb, hp, hsp⟩
    | some info =>
      by_cases hle : s.least_unacked ≤ n
      · simp only [getTransmissionInfo, hle, if_true] at hg
        obtain ⟨g1, g2, g3⟩ := inFlightSums_same s.unacked_packets
          (n - s.least_unacked) info
          { info with retransmittable_frames := [],
                      retransmission_link := none } hg rfl rfl rfl
        exact ⟨by dsimp only; rw [g1, ← hb], by dsimp only; rw [g2, ← hp],
          fun q => by dsimp only; rw [g3 q, ← hsp q]⟩
      · simp [getTransmissionInfo, hle] at hg
  | neuterUnencryptedPackets =>
    have hpred : ∀ lv, (lv == EncryptionLevel.initial) = true →
        GetPacketNumberSpaceOfLevel lv = PacketNumberSpace.initialData := by
      intro lv hlv
      cases lv <;> simp_all [GetPacketNumberSpaceOfLevel]
    obtain ⟨h1, h2, h3, h4⟩ := inFlightSums_neuterMatched _
      PacketNumberSpace.initialData hpred s.unacked_packets s.least_unacked
    dsimp only [NeuterUnencryptedPackets, applyNeuter]
    refine ⟨?_, ?_, fun q => ?_⟩
    · dsimp only
      omega
    · dsimp only
      omega
    dsimp only
    by_cases hq : q = PacketNumberSpace.initialData
    · subst hq
      rw [if_pos rfl]
      have := hsp PacketNumberSpace.initialData
      omega
    · rw [if_neg hq, hsp q, ← h4 q hq]
  | neuterHandshakePackets =>
    have hpred : ∀ lv,
        (GetPacketNumberSpaceOfLevel lv ==
          PacketNumberSpace.handshakeData) = true →
        GetPacketNumberSpaceOfLevel lv = PacketNumberSpace.handshakeData := by
      intro lv hlv
      simpa using hlv
    obtain ⟨h1, h2, h3, h4⟩ := inFlightSums_neuterMatched _
      PacketNumberSpace.handshakeData hpred s.unacked_packets s.least_unacked
    dsimp only [NeuterHandshakePackets, applyNeuter]
    refine ⟨?_, ?_, fun q => ?_⟩
    · dsimp only
      omega
    · dsimp only
      omega
    dsimp only
    by_cases hq : q = PacketNumberSpace.handshakeData
    · subst hq
      rw [if_pos rfl]
      have := hsp PacketNumberSpace.handshakeData
      omega
    · rw [if_neg hq, hsp q, ← h4 q hq]
  | maybeAggregateAckedStreamFrame info d t => exact ⟨hb, hp, hsp⟩
  | notifyAggregatedStreamFrameAcked d => exact ⟨hb, hp, hsp⟩
  | enableMultiplePacketNumberSpacesSupport => exact ⟨hb, hp, hsp⟩

/-- C1: in every reachable ledger state, `bytes_in_flight` equals the sum
of `bytes_sent` over the tracked records with `in_flight = true`,
`packets_in_flight` equals their count, and each per-space byte counter
equals the corresponding per-space sum (so in particular the per-space
equalities hold once multiple packet number spaces are enabled). -/
theorem C1_inFlightAccounting (s : QuicUnackedPacketMap)
    (h : Reachable s) : CountersOk s := by
  induction h with
  | init => exact ⟨rfl, rfl, fun sp => rfl⟩
  | step hr hst ih => exact countersOk_step hst ih

/-- C1 witness: the accounting invariant holds in the concrete reachable
ledger obtained by the two example sends. -/
theorem C1_witness : CountersOk exAfterTwoSends :=
  C1_inFlightAccounting exAfterTwoSends
    (Reachable.step
      (Reachable.step Reachable.init
        (Step.addSentPacket initialState exPkt1
          TransmissionType.notRetransmission 5 true true exAfterOneSend rfl))
      (Step.addSentPacket exAfterOneSend exPkt2
        TransmissionType.notRetransmission 7 true true exAfterTwoSends rfl))

/-- Updating index `i` makes the lookup at `i` return the new record. -/
theorem nthInfo_setInfo :
    ∀ (l : List QuicTransmissionInfo) (i : Nat)
      (a v : QuicTransmissionInfo), nthInfo l i = some a →
      nthInfo (setInfo l i v) i = some v
  | [], i, a, v, h => by cases h
  | b :: rest, 0, a, v, h => rfl
  | b :: rest, i + 1, a, v, h => nthInfo_setInfo rest i a v h

/-- C9: `RemoveFromInFlight` requires its target record to be currently in
flight — on a record that is not in flight it fails, a fatal contract
violation, never a silent no-op — and on an in-flight record it clears the
flag and decrements the global byte and packet counters and the per-space
byte counter of the record's space by exactly the record's `bytes_sent`. -/
theorem C9_removeFromInFlight (s : QuicUnackedPacketMap) (n : Nat)
    (info : QuicTransmissionInfo)
    (hg : getTransmissionInfo s n = some info) (hc : CountersOk s) :
    (info.in_flight = false → RemoveFromInFlight s n = none) ∧
    (info.in_flight = true → ∃ s', RemoveFromInFlight s n = some s' ∧
      getTransmissionInfo s' n = some { info with in_flight := false } ∧
      s'.bytes_in_flight + info.bytes_sent = s.bytes_in_flight ∧
      s'.packets_in_flight + 1 = s.packets_in_flight ∧
      ∀ q, s'.bytes_in_flight_per_packet_number_space q +
        (if q = GetPacketNumberSpaceOfLevel info.encryption_level
          then info.bytes_sent else 0) =
        s.bytes_in_flight_per_packet_number_space q) := by
  have hle : s.least_unacked ≤ n := by
    by_cases hle : s.least_unacked ≤ n
    · exact hle
    · simp [getTransmissionInfo, hle] at hg
  have hnth : nthInfo s.unacked_packets (n - s.least_unacked) = some info := by
    simpa [getTransmissionInfo, hle] using hg
  constructor
  · intro hf
    unfold RemoveFromInFlight
    rw [hg]
    simp [hf]
  · intro hf
    obtain ⟨h1, h2, h3⟩ :=
      inFlightSums_clear s.unacked_packets (n - s.least_unacked) info hnth hf
    obtain ⟨hb, hp, hsp⟩ := hc
    have heq : RemoveFromInFlight s n = some { s with
        unacked_packets := setInfo s.unacked_packets (n - s.least_unacked)
          { info with in_flight := false }
        bytes_in_flight := s.bytes_in_flight - info.bytes_sent
        bytes_in_flight_per_packet_number_space := fun q =>
          if q = GetPacketNumberSpaceOfLevel info.encryption_level then
            s.bytes_in_flight_per_packet_number_space q - info.bytes_sent
          else s.bytes_in_flight_per_packet_number_space q
        packets_in_flight := s.packets_in_flight - 1 } := by
      unfold RemoveFromInFlight
      rw [hg]
      simp [hf]
    refine ⟨_, heq, ?_, ?_, ?_, fun q => ?_⟩
    · show (if s.least_unacked ≤ n then
        nthInfo (setInfo s.unacked_packets (n - s.least_unacked)
          { info with in_flight := false }) (n - s.least_unacked)
        else none) = _
      rw [if_pos hle]
      exact nthInfo_setInfo s.unacked_packets (n - s.least_unacked) info
        { info with in_flight := false } hnth
    · dsimp only
      omega
    · dsimp only
      omega
    · dsimp only
      by_cases hq : q = GetPacketNumberSpaceOfLevel info.encryption_level
      · rw [if_pos hq, if_pos hq]
        subst hq
        have h3q := h3 (GetPacketNumberSpaceOfLevel info.encryption_level)
        rw [if_pos rfl] at h3q
        have hspq := hsp (GetPacketNumberSpaceOfLevel info.encryption_level)
        omega
      · rw [if_neg hq, if_neg hq]
        omega

/-- C9 witness: in the concrete ledger after the two example sends, packet
1 is in flight; removing it from flight succeeds, clears its flag and
returns all counters by exactly its 150 bytes. -/
theorem C9_witness :
    ∃ s', RemoveFromInFlight exAfterTwoSends 1 = some s' ∧
      getTransmissionInfo s' 1 = some { exRec1 with in_flight := false } ∧
      s'.bytes_in_flight + exRec1.bytes_sent =
        exAfterTwoSends.bytes_in_flight ∧
      s'.packets_in_flight + 1 = exAfterTwoSends.packets_in_flight ∧
      ∀ q, s'.bytes_in_flight_per_packet_number_space q +
        (if q = GetPacketNumberSpaceOfLevel exRec1.encryption_level
          then exRec1.bytes_sent else 0) =
        exAfterTwoSends.bytes_in_flight_per_packet_number_space q :=
  (C9_removeFromInFlight exAfterTwoSends 1 exRec1 rfl (by decide)).2 rfl

/-- Unfolding equation of the neuter scan on a non-empty ledger. -/
theorem neuterMatchedPackets_cons (p : EncryptionLevel → Bool) (n : Nat)
    (info : QuicTransmissionInfo) (rest : List QuicTransmissionInfo) :
    neuterMatchedPackets p n (info :: rest) =
      (let r := neuterMatchedPackets p (n + 1) rest
      if p info.encryption_level then
        let cleared := { info with retransmittable_frames := [],
                                   retransmission_link := none,
                                   in_flight := false }
        if info.in_flight then
          ⟨cleared :: r.records, n :: r.neutered,
            info.bytes_sent + r.bytesRemoved, 1 + r.packetsRemoved⟩
        else ⟨cleared :: r.records, r.neutered, r.bytesRemoved,
          r.packetsRemoved⟩
      else ⟨info :: r.records, r.neutered, r.bytesRemoved,
        r.packetsRemoved⟩) := rfl

/-- The neuter scan returns exactly the packet numbers whose in-flight flag
transitioned from true to false, and every record matched by the threshold
predicate ends with no retransmittable frames and out of flight. -/
theorem neuterMatched_spec (p : EncryptionLevel → Bool) :
    ∀ (l : List QuicTransmissionInfo) (n : Nat),
      (neuterMatchedPackets p n l).neutered =
        inFlightTransitions n l (neuterMatchedPackets p n l).records ∧
      ∀ i a b, nthInfo l i = some a →
        nthInfo (neuterMatchedPackets p n l).records i = some b →
        p a.encryption_level = true →
        b.retransmittable_frames = [] ∧ b.in_flight = false
  | [], n => by
    refine ⟨rfl, fun i a b ha _ _ => ?_⟩
    cases ha
  | info :: rest, n => by
    obtain ⟨ih1, ih2⟩ := neuterMatched_spec p rest (n + 1)
    rw [neuterMatchedPackets_cons]
    by_cases hm : p info.encryption_level = true
    · by_cases hf : info.in_flight = true
      · simp only [hm, hf, if_true]
        constructor
        · show n :: _ = inFlightTransitions n (info :: rest) (_ :: _)
          show n :: _ =
            (if info.in_flight && true then [n] else []) ++ _
          rw [hf]
          simp only [Bool.true_and, Bool.and_true]
          rw [ih1]
          rfl
        · intro i a b ha hb hpa
          cases i with
          | zero =>
            simp only [nthInfo, Option.some_inj] at ha hb
            subst hb
            exact ⟨rfl, rfl⟩
          | succ j =>
            simp only [nthInfo] at ha hb
            exact ih2 j a b ha hb hpa
      · have hf' : info.in_flight = false := by simpa using hf
        simp only [hm, hf', if_true, Bool.false_eq_true, if_false]
        constructor
        · show _ = inFlightTransitions n (info :: rest) (_ :: _)
          show _ = (if info.in_flight && true then [n] else []) ++ _
          rw [hf']
          simp only [Bool.false_and]
          rw [ih1]
          rfl
        · intro i a b ha hb hpa
          cases i with
          | zero =>
            simp only [nthInfo, Option.some_inj] at ha hb
            subst hb
            exact ⟨rfl, rfl⟩
          | succ j =>
            simp only [nthInfo] at ha hb
            exact ih2 j a b ha hb hpa
    · have hm' : p info.encryption_level = false := by simpa using hm
      simp only [hm', Bool.false_eq_true, if_false]
      constructor
      · show _ = inFlightTransitions n (info :: rest) (_ :: _)
        show _ = (if info.in_flight && !info.in_flight then [n] else []) ++ _
        cases hf : info.in_flight <;>
          simp only [hf, Bool.false_and, Bool.true_and, Bool.not_true,
            Bool.and_false, if_false] <;>
          rw [ih1] <;> rfl
      · intro i a b ha hb hpa
        cases i with
        | zero =>
          simp only [nthInfo, Option.some_inj] at ha hb
          subst ha
          rw [hm'] at hpa
          cases hpa
        | succ j =>
          simp only [nthInfo] at ha hb
          exact ih2 j a b ha hb hpa

/-- C8: after `NeuterHandshakePackets` (and analogously
`NeuterUnencryptedPackets`) every affected record carries no
retransmittable frames and is not in flight, and the returned list is
exactly the packet numbers whose `in_flight` flag transitioned from true
to false as a result of the call. -/
theorem C8_neuterPackets (s : QuicUnackedPacketMap) :
    ((NeuterHandshakePackets s).2 =
      inFlightTransitions s.least_unacked s.unacked_packets
        (NeuterHandshakePackets s).1.unacked_packets) ∧
    (∀ i a b, nthInfo s.unacked_packets i = some a →
      nthInfo (NeuterHandshakePackets s).1.unacked_packets i = some b →
      GetPacketNumberSpaceOfLevel a.encryption_level =
        PacketNumberSpace.handshakeData →
      b.retransmittable_frames = [] ∧ b.in_flight = false) ∧
    ((NeuterUnencryptedPackets s).2 =
      inFlightTransitions s.least_unacked s.unacked_packets
        (NeuterUnencryptedPackets s).1.unacked_packets) ∧
    (∀ i a b, nthInfo s.unacked_packets i = some a →
      nthInfo (NeuterUnencryptedPackets s).1.unacked_packets i = some b →
      a.encryption_level = EncryptionLevel.initial →
      b.retransmittable_frames = [] ∧ b.in_flight = false) := by
  obtain ⟨hh1, hh2⟩ := neuterMatched_spec
    (fun lv => GetPacketNumberSpaceOfLevel lv ==
      PacketNumberSpace.handshakeData)
    s.unacked_packets s.least_unacked
  obtain ⟨hu1, hu2⟩ := neuterMatched_spec
    (fun lv => lv == EncryptionLevel.initial)
    s.unacked_packets s.least_unacked
  refine ⟨hh1, fun i a b ha hb hpa => ?_, hu1,
    fun i a b ha hb hpa => ?_⟩
  · exact hh2 i a b ha hb (by simpa using hpa)
  · exact hu2 i a b ha hb (by simpa using hpa)

/-- C8 witness: in the ledger after the two example sends, only packet 2 is
a handshake packet; neutering returns exactly the list with the single
number 2, matching the one in-flight transition, and the rewritten record
2 has no frames and is out of flight. -/
theorem C8_witness :
    (NeuterHandshakePackets exAfterTwoSends).2 =
      inFlightTransitions exAfterTwoSends.least_unacked
        exAfterTwoSends.unacked_packets
        (NeuterHandshakePackets exAfterTwoSends).1.unacked_packets ∧
    (NeuterHandshakePackets exAfterTwoSends).2 = [2] ∧
    ∃ b, nthInfo
        (NeuterHandshakePackets exAfterTwoSends).1.unacked_packets 1 =
          some b ∧
      b.retransmittable_frames = [] ∧ b.in_flight = false := by
  refine ⟨(C8_neuterPackets exAfterTwoSends).1, by decide, ?_⟩
  exact ⟨_, rfl, (C8_neuterPackets exAfterTwoSends).2.1 1 _ _ rfl rfl rfl⟩

/-- C6 counterexample: with multiple packet number spaces enabled, a single
per-space largest-acked update reaches a state where the Initial space's
largest acked (5) exceeds the global `largest_acked` (still 0), so the
claimed bound on the global value fails after this operation. -/
theorem C6_counterexample :
    Reachable exUncoupled ∧
    exUncoupled.supports_multiple_packet_number_spaces = true ∧
    exUncoupled.largest_acked <
      exUncoupled.largest_acked_packets PacketNumberSpace.initialData :=
  ⟨Reachable.step
      (Reachable.step Reachable.init
        (Step.enableMultiplePacketNumberSpacesSupport initialState))
      (Step.maybeUpdateLargestAcked
        (EnableMultiplePacketNumberSpacesSupport initialState)
        PacketNumberSpace.initialData 5),
    rfl, by decide⟩

/-- C6 (amended): every operation leaves each space's largest-acked
monotonically non-decreasing; and under the documented ack discipline —
each per-space update's packet number does not exceed the current global
`largest_acked` — no space's largest-acked ever exceeds the global value. -/
theorem C6_perSpaceLargestAcked :
    (∀ s s', Step s s' → ∀ sp,
      s.largest_acked_packets sp ≤ s'.largest_acked_packets sp) ∧
    (∀ s, CoupledReachable s → ∀ sp,
      s.largest_acked_packets sp ≤ s.largest_acked) := by
  constructor
  · intro s s' hst sp
    cases hst with
    | addSentPacket pkt tt sent_time fl rtt s' hadd =>
      obtain ⟨-, -, -, hlap⟩ := addSentPacket_inv hadd
      rw [hlap]
    | removeFromInFlight n s' hrem =>
      unfold RemoveFromInFlight at hrem
      cases hg : getTransmissionInfo s n with
      | none => rw [hg] at hrem; cases hrem
      | some info =>
        rw [hg] at hrem
        by_cases hf : info.in_flight = true
        · simp only [hf, if_true, Option.some_inj] at hrem
          subst hrem
          exact Nat.le_refl _
        · simp [hf] at hrem
    | increaseLargestAcked n => exact Nat.le_refl _
    | maybeUpdateLargestAcked sp2 n =>
      dsimp only [MaybeUpdateLargestAckedOfPacketNumberSpace]
      by_cases hq : sp = sp2
      · rw [if_pos hq]
        exact Nat.le_max_left _ _
      · rw [if_neg hq]
    | removeObsoletePackets => exact Nat.le_refl _
    | removeRetransmittability n =>
      unfold RemoveRetransmittability
      cases getTransmissionInfo s n with
      | none => exact Nat.le_refl _
      | some info => exact Nat.le_refl _
    | neuterUnencryptedPackets => exact Nat.le_refl _
    | neuterHandshakePackets => exact Nat.le_refl _
    | maybeAggregateAckedStreamFrame info d t => exact Nat.le_refl _
    | notifyAggregatedStreamFrameAcked d => exact Nat.le_refl _
    | enableMultiplePacketNumberSpacesSupport => exact Nat.le_refl _
  · intro s hcr
    induction hcr with
    | init =>
      intro sp
      exact Nat.le_refl 0
    | maybeUpdateLargestAcked sp2 n hcr hle ih =>
      intro sp
      dsimp only [MaybeUpdateLargestAckedOfPacketNumberSpace]
      by_cases hq : sp = sp2
      · rw [if_pos hq]
        exact Nat.max_le.mpr ⟨ih sp, hle⟩
      · rw [if_neg hq]
        exact ih sp
    | otherStep hcr hst hne ih =>
      intro sp
      cases hst with
      | addSentPacket pkt tt sent_time fl rtt s' hadd =>
        obtain ⟨-, -, hla, hlap⟩ := addSentPacket_inv hadd
        rw [hla, hlap]
        exact ih sp
      | removeFromInFlight n s' hrem =>
        unfold RemoveFromInFlight at hrem
        split at hrem
        · cases hrem
        · split at hrem
          · simp only [Option.some_inj] at hrem
            subst hrem
            exact ih sp
          · cases hrem
      | increaseLargestAcked n =>
        exact Nat.le_trans (ih sp) (Nat.le_max_left _ _)
      | maybeUpdateLargestAcked sp2 n =>
        exact absurd rfl (hne sp2 n)
      | removeObsoletePackets => exact ih sp
      | removeRetransmittability n =>
        unfold RemoveRetransmittability
        split
        · exact ih sp
        · exact ih sp
      | neuterUnencryptedPackets => exact ih sp
      | neuterHandshakePackets => exact ih sp
      | maybeAggregateAckedStreamFrame info d t => exact ih sp
      | notifyAggregatedStreamFrameAcked d => exact ih sp
      | enableMultiplePacketNumberSpacesSupport => exact ih sp

/-- C6 witness: a concrete step is per-space monotone, and in the concrete
coupled state (global advanced to 5 before the Initial space records 4)
every space's value is bounded by the global one. -/
theorem C6_witness :
    initialState.largest_acked_packets PacketNumberSpace.initialData ≤
      (IncreaseLargestAcked initialState 3).largest_acked_packets
        PacketNumberSpace.initialData ∧
    exCoupled.largest_acked_packets PacketNumberSpace.initialData ≤
      exCoupled.largest_acked := by
  have hne : ∀ (sp : PacketNumberSpace) (n : Nat),
      IncreaseLargestAcked initialState 5 ≠
        MaybeUpdateLargestAckedOfPacketNumberSpace initialState sp n := by
    intro sp n hcontra
    have h5 := congrArg QuicUnackedPacketMap.largest_acked hcontra
    have h5' : (5 : Nat) = 0 := h5
    exact absurd h5' (by decide)
  refine ⟨C6_perSpaceLargestAcked.1 initialState
      (IncreaseLargestAcked initialState 3)
      (Step.increaseLargestAcked initialState 3)
      PacketNumberSpace.initialData,
    C6_perSpaceLargestAcked.2 exCoupled ?_ PacketNumberSpace.initialData⟩
  exact CoupledReachable.maybeUpdateLargestAcked PacketNumberSpace.initialData
    4
    (CoupledReachable.otherStep CoupledReachable.init
      (Step.increaseLargestAcked initialState 5) hne)
    (by decide)
